import Mathlib

/-!
Shallow embedding of the German Bridge ("GBridge") game server core
(`src/backend/src`), together with theorems settling the specification
claims about it.

Conventions of the embedding:
* Rust `Vec<T>` becomes `List T`; `HashMap<K, V>` becomes an association
  list `List (K × V)` whose operations (`alookup`, `ainsert`, ...) mirror
  `HashMap::get` / `HashMap::insert` (insert replaces an existing key).
* `PlayerId` is `String` (as in `connection.rs`).
* `u8` / `usize` values become `Nat`; the one place the code does `u8`
  arithmetic that can wrap (`BiddingState::validate_last_bid`) is embedded
  with an explicit `% 256`.
* Fallible operations (`Result<T, GameError>`) become `Except GameError T`,
  or `Option GameError` for pure validators returning `Result<(), _>`,
  or `GameState × Option GameError` where the Rust code mutates `&mut self`
  before a possible error (`GameState::apply_action`).
* The two sources of randomness (`Deck::shuffle`, `GameState::random_trump`)
  are passed in as explicit parameters (`shuffled`, `trump`): a theorem
  quantifying over them covers every possible random outcome, and a
  concrete instantiation is one possible outcome.
* `std::time::Instant` fields (`turn_deadline`, `created_at`) are omitted:
  no claim settled here depends on wall-clock time, and no operation
  embedded here reads or writes them.
-/

namespace GBridge

/-- `card.rs`: the four suits, in the source's declaration order. -/
inductive Suit where
  | clubs
  | spades
  | hearts
  | diamonds
deriving DecidableEq, Repr

/-- `card.rs`: the thirteen ranks, two lowest, ace highest. -/
inductive Rank where
  | two
  | three
  | four
  | five
  | six
  | seven
  | eight
  | nine
  | ten
  | jack
  | queen
  | king
  | ace
deriving DecidableEq, Repr

/-- `card.rs` `impl Ord for Rank`: the numeric value used to compare ranks. -/
def rankValue : Rank → Nat
  | .two => 0
  | .three => 1
  | .four => 2
  | .five => 3
  | .six => 4
  | .seven => 5
  | .eight => 6
  | .nine => 7
  | .ten => 8
  | .jack => 9
  | .queen => 10
  | .king => 11
  | .ace => 12

/-- `card.rs`: a playing card. -/
structure Card where
  suit : Suit
  rank : Rank
deriving DecidableEq, Repr

/-- `Card::beats`: whether `self` beats `other` given the optional trump
suit and the lead suit of the trick. -/
def Card.beats (self other : Card) (trump : Option Suit) (lead_suit : Suit) : Bool :=
  let self_is_trump := match trump with
    | some t => self.suit = t
    | none => false
  let other_is_trump := match trump with
    | some t => other.suit = t
    | none => false
  if self_is_trump && !other_is_trump then
    true
  else if !self_is_trump && other_is_trump then
    false
  else if self.suit = other.suit then
    rankValue self.rank > rankValue other.rank
  else
    self.suit = lead_suit

/-- `error.rs` `GameError`. -/
inductive GameError where
  | invalidMove (msg : String)
  | notPlayerTurn
  | gameNotFound
  | playerNotInGame
deriving DecidableEq, Repr

/-- `error.rs` `LobbyError`. -/
inductive LobbyError where
  | lobbyFull
  | lobbyNotFound
  | notEnoughPlayers
  | notHost
deriving DecidableEq, Repr

/-- `connection.rs`: `pub type PlayerId = String`. -/
abbrev PlayerId := String

/-- `Deck::new_german_bridge`: the 52-card deck in construction order
(outer loop over suits, inner loop over ranks). -/
def Deck.new_german_bridge : List Card :=
  [Suit.clubs, Suit.spades, Suit.hearts, Suit.diamonds].flatMap fun suit =>
    [Rank.two, Rank.three, Rank.four, Rank.five, Rank.six, Rank.seven, Rank.eight,
     Rank.nine, Rank.ten, Rank.jack, Rank.queen, Rank.king, Rank.ace].map fun rank =>
      { suit := suit, rank := rank }

/-- The loop body of `Deck::deal`: repeatedly `pop` a card (the `cards`
argument here is already reversed, so `pop` is taking the head), push it
onto `hands[player_idx]`, and advance `player_idx` round-robin. -/
def dealLoop (num_players : Nat) : List Card → List (List Card) → Nat → List (List Card)
  | [], hands, _ => hands
  | card :: rest, hands, player_idx =>
      dealLoop num_players rest
        (hands.set player_idx (hands.getD player_idx [] ++ [card]))
        ((player_idx + 1) % num_players)

/-- `Deck::deal`: deal the WHOLE deck round-robin (`Vec::pop` takes from the
back of the vector, hence the `reverse`).  Note the loop runs until the deck
is empty, regardless of how many cards per player the round calls for. -/
def Deck.deal (cards : List Card) (num_players : Nat) : List (List Card) :=
  dealLoop num_players cards.reverse (List.replicate num_players []) 0

namespace Hand

/-- `Hand::valid_plays`: all cards if no lead suit or void in it, else
exactly the cards of the lead suit. -/
def valid_plays (cards : List Card) (lead_suit : Option Suit) : List Card :=
  match lead_suit with
  | none => cards
  | some suit =>
      let cards_in_suit := cards.filter fun c => c.suit == suit
      if cards_in_suit.isEmpty then cards else cards_in_suit

/-- `Hand::has_card`. -/
def has_card (cards : List Card) (card : Card) : Bool :=
  cards.contains card

/-- Helper for `Hand::play_card`: remove the first occurrence of `card`
(`Vec::remove` at the `position` of the first match). -/
def eraseFirst : List Card → Card → List Card
  | [], _ => []
  | c :: rest, card => if c == card then rest else c :: eraseFirst rest card

/-- `Hand::play_card`: remove the card if present, else `InvalidMove`. -/
def play_card (cards : List Card) (card : Card) : Except GameError (List Card) :=
  if cards.contains card then .ok (eraseFirst cards card)
  else .error (.invalidMove "Card not in hand")

end Hand

/-- `trick.rs` `Trick`. -/
structure Trick where
  lead_suit : Option Suit
  cards : List (PlayerId × Card)
deriving DecidableEq, Repr

namespace Trick

/-- `Trick::new`. -/
def new : Trick :=
  { lead_suit := none, cards := [] }

/-- `Trick::add_card`: the first card played sets the lead suit. -/
def add_card (t : Trick) (player_id : PlayerId) (card : Card) : Trick :=
  { lead_suit := if t.cards.isEmpty then some card.suit else t.lead_suit,
    cards := t.cards ++ [(player_id, card)] }

/-- `Trick::is_complete`. -/
def is_complete (t : Trick) (num_players : Nat) : Bool :=
  t.cards.length == num_players

/-- `Trick::winner`: left fold keeping the currently-winning (player, card)
pair, replacing it whenever a later card `beats` it. -/
def winner (t : Trick) (trump : Option Suit) : Option PlayerId :=
  match t.cards with
  | [] => none
  | first :: rest =>
      match t.lead_suit with
      | none => none
      | some lead_suit =>
          some (rest.foldl
            (fun acc pc => if Card.beats pc.2 acc.2 trump lead_suit then pc else acc)
            first).1

end Trick

/-- `trick.rs` `CompletedTrick`. -/
structure CompletedTrick where
  winner : PlayerId
  cards : List (PlayerId × Card)
  points : Nat
deriving DecidableEq, Repr

/-- Modelled from the spec (§4.1 trick winner rule), for comparison with the
code's `Card.beats`: card `a` beats card `b` iff (1) `a` is trump and `b` is
not, or (2) both are trump and `a` outranks `b`, or (3) neither is trump,
`a` follows lead and `b` does not, or (4) neither is trump, both follow
lead, and `a` outranks `b`. -/
def beatsSpec (a b : Card) (trump : Option Suit) (lead : Suit) : Prop :=
  (trump = some a.suit ∧ trump ≠ some b.suit)
  ∨ (trump = some a.suit ∧ trump = some b.suit ∧ rankValue a.rank > rankValue b.rank)
  ∨ (trump ≠ some a.suit ∧ trump ≠ some b.suit ∧ a.suit = lead ∧ b.suit ≠ lead)
  ∨ (trump ≠ some a.suit ∧ trump ≠ some b.suit ∧ a.suit = lead ∧ b.suit = lead
      ∧ rankValue a.rank > rankValue b.rank)

instance (a b : Card) (trump : Option Suit) (lead : Suit) :
    Decidable (beatsSpec a b trump lead) := by
  unfold beatsSpec
  infer_instance

/-- `HashMap::get`, on the association-list model of a map. -/
def alookup {β : Type} : List (PlayerId × β) → PlayerId → Option β
  | [], _ => none
  | (k, v) :: rest, key => if k == key then some v else alookup rest key

/-- `HashMap::insert`: replace the value at an existing key, else append. -/
def ainsert {β : Type} : List (PlayerId × β) → PlayerId → β → List (PlayerId × β)
  | [], k, v => [(k, v)]
  | (k', v') :: rest, k, v =>
      if k' == k then (k', v) :: rest else (k', v') :: ainsert rest k v

/-- `*map.entry(k).or_insert(0) += v` for an integer-valued map. -/
def aaddInt : List (PlayerId × Int) → PlayerId → Int → List (PlayerId × Int)
  | [], k, v => [(k, v)]
  | (k', v') :: rest, k, v =>
      if k' == k then (k', v' + v) :: rest else (k', v') :: aaddInt rest k v

/-- `*map.entry(k).or_insert(0) += 1` for a `u8`-valued map (`tricks_won`). -/
def abumpNat : List (PlayerId × Nat) → PlayerId → List (PlayerId × Nat)
  | [], k => [(k, 1)]
  | (k', v') :: rest, k =>
      if k' == k then (k', v' + 1) :: rest else (k', v') :: abumpNat rest k

/-- `bidding.rs` `BiddingState`. -/
structure BiddingState where
  bids : List (PlayerId × Nat)
  current_bidder : PlayerId
  player_order : List PlayerId
  cards_this_round : Nat
deriving DecidableEq, Repr

/-- `bidding.rs` `Bid`: the number of tricks bid (a `u8`). -/
structure Bid where
  tricks : Nat
deriving DecidableEq, Repr

namespace BiddingState

/-- `BiddingState::new`. -/
def new (starting_player : PlayerId) (players : List PlayerId) (cards : Nat) :
    BiddingState :=
  { bids := [], current_bidder := starting_player, player_order := players,
    cards_this_round := cards }

/-- `BiddingState::is_complete`. -/
def is_complete (bs : BiddingState) : Bool :=
  bs.bids.length == bs.player_order.length

/-- `BiddingState::is_last_bidder`.  (`player_order.len() - 1` is `usize`
subtraction; all call sites have a non-empty `player_order`.) -/
def is_last_bidder (bs : BiddingState) (player_id : PlayerId) : Bool :=
  bs.bids.length == bs.player_order.length - 1 && bs.current_bidder == player_id

/-- `BiddingState::validate_last_bid`: the sum of the already-placed bids
(`sum_of_bids`) and the total with this bid are computed as `u8` in the
source, hence the explicit `% 256` (each stored bid is a `u8`, so already
`< 256`); the `cards_this_round as u8` cast is the final `% 256`. -/
def validate_last_bid (bs : BiddingState) (bid : Nat) : Option GameError :=
  if ((bs.bids.map Prod.snd).sum % 256 + bid) % 256 == bs.cards_this_round % 256 then
    some (.invalidMove ("Last bidder cannot bid " ++ toString bid
      ++ " - sum would equal total cards (" ++ toString bs.cards_this_round ++ ")"))
  else
    none

/-- `BiddingState::advance_bidder` (`position(..).unwrap_or(0)`, then the
next index modulo the order length). -/
def advance_bidder (bs : BiddingState) : BiddingState :=
  let current_index := (bs.player_order.findIdx? fun p => p == bs.current_bidder).getD 0
  { bs with current_bidder :=
      bs.player_order.getD ((current_index + 1) % bs.player_order.length) bs.current_bidder }

/-- `BiddingState::place_bid`: turn check, range check, last-bidder check,
then record the bid and advance the bidder if bidding is not complete. -/
def place_bid (bs : BiddingState) (player_id : PlayerId) (bid : Nat) :
    Except GameError BiddingState :=
  if player_id ≠ bs.current_bidder then
    .error .notPlayerTurn
  else if bid > bs.cards_this_round then
    .error (.invalidMove ("Bid " ++ toString bid ++ " exceeds cards dealt "
      ++ toString bs.cards_this_round))
  else
    match (if bs.is_last_bidder player_id then bs.validate_last_bid bid else none) with
    | some e => .error e
    | none =>
        let bs1 := { bs with bids := ainsert bs.bids player_id bid }
        if bs1.is_complete then .ok bs1 else .ok bs1.advance_bidder

end BiddingState

namespace ScoreCalculator

/-- `ScoreCalculator::calculate_player_score`: `10 + t²` on an exact bid,
`-(|t − b|)²` otherwise (the arithmetic is `i32`; `u8` inputs cannot
overflow it, so plain `Int` is faithful). -/
def calculate_player_score (bid tricks_won : Nat) : Int :=
  if bid = tricks_won then
    10 + (tricks_won : Int) * (tricks_won : Int)
  else
    let diff := abs ((tricks_won : Int) - (bid : Int)) ;
    -(diff * diff)

/-- `ScoreCalculator::calculate_round_scores`: map every bidder to a score,
tricks won defaulting to 0. -/
def calculate_round_scores (player_bids : List (PlayerId × Nat))
    (tricks_won : List (PlayerId × Nat)) : List (PlayerId × Int) :=
  player_bids.map fun pb =>
    (pb.1, calculate_player_score pb.2 ((alookup tricks_won pb.1).getD 0))

end ScoreCalculator

/-- `game_state.rs` `GamePhase`. -/
inductive GamePhase where
  | bidding
  | playing
  | roundComplete
  | gameComplete
deriving DecidableEq, Repr

/-- `protocol.rs` `PlayerAction`. -/
inductive PlayerAction where
  | bid (b : Bid)
  | playCard (c : Card)
deriving DecidableEq, Repr

/-- `game_state.rs` `GameState` (the `turn_deadline : Option<Instant>` field
is omitted; none of the embedded operations touch it). -/
structure GameState where
  phase : GamePhase
  round_number : Nat
  cards_per_player : Nat
  deck : List Card
  hands : List (PlayerId × List Card)
  current_trick : Trick
  completed_tricks : List CompletedTrick
  round_scores : List (PlayerId × Int)
  total_scores : List (PlayerId × Int)
  trump_suit : Option Suit
  player_bids : List (PlayerId × Nat)
  tricks_won : List (PlayerId × Nat)
  current_player : PlayerId
  first_bidder : PlayerId
  bidding_state : Option BiddingState
  players : List PlayerId
deriving DecidableEq, Repr

namespace GameState

/-- `GameState::start_round`: fresh shuffled deck (the shuffle outcome is
the `shuffled` parameter), random trump (the `trump` parameter), round
number wrap-around, deal, and reset of all per-round state.  `Deck::deal`
consumes the whole deck, so `deck` ends empty. -/
def start_round (s : GameState) (shuffled : List Card) (trump : Suit) : GameState :=
  let num_players := s.players.length
  let max_cards_per_player := 52 / num_players
  let round_number := if s.round_number > max_cards_per_player then 1 else s.round_number
  let cards_per_player := if s.round_number > max_cards_per_player then 1 else s.round_number
  let dealt := Deck.deal shuffled num_players
  { s with
    deck := [],
    trump_suit := some trump,
    round_number := round_number,
    cards_per_player := cards_per_player,
    hands := (s.players.zip dealt).foldl (fun m ph => ainsert m ph.1 ph.2) [],
    phase := .bidding,
    current_trick := Trick.new,
    completed_tricks := [],
    round_scores := [],
    player_bids := [],
    tricks_won := s.players.foldl (fun m p => ainsert m p 0) s.tricks_won,
    current_player := s.first_bidder,
    bidding_state := some (BiddingState.new s.first_bidder s.players cards_per_player) }

/-- `GameState::new`: initial fields for round 1, then `start_round`.
(`players[0]` panics on an empty list in Rust; every caller passes a
non-empty list, and the `headD` default is never read in that case.) -/
def new (players : List PlayerId) (shuffled : List Card) (trump : Suit) : GameState :=
  let first_player := players.headD ""
  start_round
    { phase := .bidding,
      round_number := 1,
      cards_per_player := 1,
      deck := Deck.new_german_bridge,
      hands := [],
      current_trick := Trick.new,
      completed_tricks := [],
      round_scores := [],
      total_scores := players.foldl (fun m p => ainsert m p 0) [],
      trump_suit := none,
      player_bids := [],
      tricks_won := players.foldl (fun m p => ainsert m p 0) [],
      current_player := first_player,
      first_bidder := first_player,
      bidding_state := none,
      players := players }
    shuffled trump

/-- `GameState::validate_bid`. -/
def validate_bid (s : GameState) (player_id : PlayerId) (bid : Nat) : Option GameError :=
  if bid > s.cards_per_player then
    some (.invalidMove ("Bid " ++ toString bid ++ " exceeds cards dealt "
      ++ toString s.cards_per_player))
  else
    match s.bidding_state with
    | some bidding_state =>
        if bidding_state.is_last_bidder player_id then
          bidding_state.validate_last_bid bid
        else
          none
    | none => none

/-- `GameState::validate_action` (`none` is `Ok(())`). -/
def validate_action (s : GameState) (player_id : PlayerId) (action : PlayerAction) :
    Option GameError :=
  if player_id ≠ s.current_player then
    some .notPlayerTurn
  else if ¬ s.players.contains player_id then
    some .playerNotInGame
  else
    match action with
    | .bid bid =>
        if s.phase ≠ GamePhase.bidding then
          some (.invalidMove "Not in bidding phase")
        else
          s.validate_bid player_id bid.tricks
    | .playCard card =>
        if s.phase ≠ GamePhase.playing then
          some (.invalidMove "Not in playing phase")
        else
          match alookup s.hands player_id with
          | none => some .playerNotInGame
          | some hand =>
              if ¬ Hand.has_card hand card then
                some (.invalidMove "Card not in hand")
              else if ¬ (Hand.valid_plays hand s.current_trick.lead_suit).contains card then
                some (.invalidMove "Must follow suit if possible")
              else
                none

/-- `GameState::should_continue_game`. -/
def should_continue_game (s : GameState) : Bool :=
  s.round_number < 52 / s.players.length

/-- `GameState::advance_turn`. -/
def advance_turn (s : GameState) : GameState :=
  let current_index := (s.players.findIdx? fun p => p == s.current_player).getD 0
  { s with current_player :=
      s.players.getD ((current_index + 1) % s.players.length) s.current_player }

/-- `GameState::calculate_round_scores`: recompute `round_scores` from the
bids and tricks won, then fold them into `total_scores` via
`entry(..).or_insert(0) += score`. -/
def calculate_round_scores (s : GameState) : GameState :=
  let round_scores := ScoreCalculator.calculate_round_scores s.player_bids s.tricks_won
  { s with
    round_scores := round_scores,
    total_scores := round_scores.foldl (fun m ps => aaddInt m ps.1 ps.2) s.total_scores }

/-- `GameState::complete_trick`: determine the winner, bump `tricks_won`,
archive the trick, clear it, make the winner lead; then if all hands are
empty, score the round and either start the next round or finish. -/
def complete_trick (s : GameState) (shuffled : List Card) (trump : Suit) :
    GameState × Option GameError :=
  match s.current_trick.winner s.trump_suit with
  | none => (s, some (.invalidMove "Cannot determine trick winner"))
  | some winner =>
      let s1 := { s with tricks_won := abumpNat s.tricks_won winner }
      let s2 := { s1 with
        completed_tricks := s1.completed_tricks
          ++ [({ winner := winner, cards := s1.current_trick.cards,
                 points := 0 } : CompletedTrick)],
        current_trick := Trick.new,
        current_player := winner }
      if s2.hands.all fun kv => kv.2.isEmpty then
        let s3 := { s2.calculate_round_scores with phase := GamePhase.roundComplete }
        if s3.should_continue_game then
          let current_index := (s3.players.findIdx? fun p => p == s3.first_bidder).getD 0
          let s4 := { s3 with
            round_number := s3.round_number + 1,
            first_bidder :=
              s3.players.getD ((current_index + 1) % s3.players.length) s3.first_bidder }
          (s4.start_round shuffled trump, none)
        else
          ({ s3 with phase := GamePhase.gameComplete }, none)
      else
        (s2, none)

/-- The tail of the `PlayCard` branch of `GameState::apply_action`: add the
card to the current trick, then either complete the trick or advance the
turn. -/
def play_card_rest (s : GameState) (player_id : PlayerId) (card : Card)
    (shuffled : List Card) (trump : Suit) : GameState × Option GameError :=
  let s2 := { s with current_trick := s.current_trick.add_card player_id card }
  if s2.current_trick.is_complete s2.players.length then
    s2.complete_trick shuffled trump
  else
    (s2.advance_turn, none)

/-- `GameState::apply_action`: validate, then mutate.  The returned state is
the state as left by the call, including the partial mutation the source
performs when `player_bids.insert` precedes a failing
`BiddingState::place_bid`. -/
def apply_action (s : GameState) (player_id : PlayerId) (action : PlayerAction)
    (shuffled : List Card) (trump : Suit) : GameState × Option GameError :=
  match s.validate_action player_id action with
  | some e => (s, some e)
  | none =>
      match action with
      | .bid bid =>
          let s1 := { s with player_bids := ainsert s.player_bids player_id bid.tricks }
          match s1.bidding_state with
          | none => (s1, none)
          | some bidding_state =>
              match bidding_state.place_bid player_id bid.tricks with
              | .error e => (s1, some e)
              | .ok bs1 =>
                  if bs1.is_complete then
                    ({ s1 with phase := GamePhase.playing,
                               current_player := s1.first_bidder,
                               bidding_state := none }, none)
                  else
                    ({ s1 with bidding_state := some bs1,
                               current_player := bs1.current_bidder }, none)
      | .playCard card =>
          match alookup s.hands player_id with
          | none => play_card_rest s player_id card shuffled trump
          | some hand =>
              match Hand.play_card hand card with
              | .error e => (s, some e)
              | .ok hand1 =>
                  play_card_rest { s with hands := ainsert s.hands player_id hand1 }
                    player_id card shuffled trump

/-- `GameState::get_auto_action`: bid 0 in the bidding phase, play the first
valid card in the playing phase. -/
def get_auto_action (s : GameState) : Option PlayerAction :=
  match s.phase with
  | .bidding => some (.bid { tricks := 0 })
  | .playing =>
      match alookup s.hands s.current_player with
      | some hand =>
          match (Hand.valid_plays hand s.current_trick.lead_suit).head? with
          | some card => some (.playCard card)
          | none => none
      | none => none
  | _ => none

end GameState

/-- `protocol.rs` `PlayerGameView`, with exactly the fields
`GameState::get_player_view` populates. -/
structure PlayerGameView where
  game_id : String
  phase : GamePhase
  your_hand : List Card
  current_trick : List (PlayerId × Card)
  scores : List (PlayerId × Int)
  trump_suit : Option Suit
  current_player : PlayerId
  your_turn : Bool
deriving DecidableEq, Repr

/-- `GameState::get_player_view`: the caller's own hand, the public trick,
the total scores, trump, phase, and whose turn it is. -/
def GameState.get_player_view (s : GameState) (player_id : PlayerId)
    (game_id : String) : PlayerGameView :=
  { game_id := game_id,
    phase := s.phase,
    your_hand := (alookup s.hands player_id).getD [],
    current_trick := s.current_trick.cards,
    scores := s.total_scores,
    trump_suit := s.trump_suit,
    current_player := s.current_player,
    your_turn := s.current_player == player_id }

/-- `lobby.rs` `Lobby` (the `created_at : Instant` and `settings` fields are
omitted; `join_lobby` reads neither). -/
structure Lobby where
  id : String
  host : PlayerId
  players : List PlayerId
  max_players : Nat
deriving DecidableEq, Repr

/-- `Lobby::is_full`. -/
def Lobby.is_full (l : Lobby) : Bool :=
  l.players.length ≥ l.max_players

/-- `LobbyManager::join_lobby`, restricted to one lobby (the manager only
looks the lobby up by id first; database persistence is fire-and-forget and
out of scope): reject if full, append the player unless already a member. -/
def join_lobby (l : Lobby) (player_id : PlayerId) : Except LobbyError Lobby :=
  if l.is_full then
    .error .lobbyFull
  else if ¬ l.players.contains player_id then
    .ok { l with players := l.players ++ [player_id] }
  else
    .ok l

/-- The rank of a card's suit in the trick-taking order: trump above lead
suit above everything else.  Used to phrase the spec's §4.1 rule as a
lexicographic comparison. -/
def suitLevel (trump : Option Suit) (lead : Suit) (c : Card) : Nat :=
  if trump = some c.suit then 2 else if c.suit = lead then 1 else 0

/-- The round-robin successor of `q` in `order` (the spec's "advance the
current bidder round-robin over the fixed player list"). -/
def nextInOrder (order : List PlayerId) (q : PlayerId) : PlayerId :=
  order.getD (((order.findIdx? fun r => r == q).getD 0 + 1) % order.length) q

/-- Whether a validation result is an `InvalidMove` rejection. -/
def isInvalidMoveO (o : Option GameError) : Bool :=
  match o with
  | some (GameError.invalidMove _) => true
  | _ => false

/-- Whether a fallible bidding operation fails with `InvalidMove`. -/
def isInvalidMoveE (e : Except GameError BiddingState) : Bool :=
  match e with
  | .error (GameError.invalidMove _) => true
  | _ => false

/-- The in-sync conditions that hold for every state produced by the public
`GameState` API: the game-level `current_player` agrees with the bidding
ledger's `current_bidder`, the game-level `cards_per_player` agrees with the
ledger's `cards_this_round`, and a non-empty trick has a lead suit. -/
def GameState.well_synced (s : GameState) : Prop :=
  (∀ bs, s.bidding_state = some bs →
      s.current_player = bs.current_bidder ∧ s.cards_per_player = bs.cards_this_round)
  ∧ (s.current_trick.cards ≠ [] → s.current_trick.lead_suit.isSome = true)

/-- A 4-player game as created by `GameState::new`, with the identity
permutation as the (possible) shuffle outcome. -/
def conservation_demo : GameState :=
  GameState.new ["p0", "p1", "p2", "p3"] Deck.new_german_bridge Suit.clubs

/-- A 2-player round-1 bidding state in which the last bidder is about to
place the final bid (player `"x"` already bid 0 of the 1 card). -/
def finalBidDemo : BiddingState :=
  { bids := [("x", 0)], current_bidder := "y", player_order := ["x", "y"],
    cards_this_round := 1 }

/-- A reachable 2-player round-1 state in which it is the last bidder's turn
and the prior bids sum to the card count, so the last-bidder rule forbids a
bid of 0: player `"p0"` bid 1 of the 1 card, and `"p1"` must now bid. -/
def autoBugState : GameState :=
  { phase := .bidding, round_number := 1, cards_per_player := 1, deck := [],
    hands := [("p0", [{ suit := Suit.spades, rank := Rank.four }]),
              ("p1", [{ suit := Suit.hearts, rank := Rank.two }])],
    current_trick := Trick.new, completed_tricks := [], round_scores := [],
    total_scores := [("p0", 0), ("p1", 0)], trump_suit := some Suit.clubs,
    player_bids := [("p0", 1)], tricks_won := [("p0", 0), ("p1", 0)],
    current_player := "p1", first_bidder := "p0",
    bidding_state := some { bids := [("p0", 1)], current_bidder := "p1",
                            player_order := ["p0", "p1"], cards_this_round := 1 },
    players := ["p0", "p1"] }

/-- A state whose game-level `current_player` (`"a"`) disagrees with the
bidding ledger's `current_bidder` (`"b"`): `validate_action` passes for
`"a"` but `place_bid` then fails, after `player_bids` was already
mutated. -/
def outOfSyncState : GameState :=
  { phase := .bidding, round_number := 1, cards_per_player := 1, deck := [],
    hands := [("a", []), ("b", [])],
    current_trick := Trick.new, completed_tricks := [], round_scores := [],
    total_scores := [("a", 0), ("b", 0)], trump_suit := some Suit.clubs,
    player_bids := [], tricks_won := [("a", 0), ("b", 0)],
    current_player := "a", first_bidder := "a",
    bidding_state := some { bids := [], current_bidder := "b",
                            player_order := ["a", "b"], cards_this_round := 1 },
    players := ["a", "b"] }

/-- The spec's scenario S4 trick: trump clubs, lead hearts; plays H10, HA,
C2 in order. -/
def trickS4 : Trick :=
  { lead_suit := some Suit.hearts,
    cards := [("P1", { suit := Suit.hearts, rank := Rank.ten }),
              ("P2", { suit := Suit.hearts, rank := Rank.ace }),
              ("P3", { suit := Suit.clubs, rank := Rank.two })] }

/-- A small end-of-round state for exercising the scoring law: player
`"p"` bid 2, won 3 tricks, and has 5 points so far. -/
def scoringDemo : GameState :=
  { phase := .roundComplete, round_number := 3, cards_per_player := 3, deck := [],
    hands := [("p", []), ("q", [])],
    current_trick := Trick.new, completed_tricks := [], round_scores := [],
    total_scores := [("p", 5), ("q", 0)], trump_suit := some Suit.diamonds,
    player_bids := [("p", 2), ("q", 1)], tricks_won := [("p", 3), ("q", 0)],
    current_player := "p", first_bidder := "p",
    bidding_state := none,
    players := ["p", "q"] }

/-- A mid-round 2-player state used to exercise the view projection. -/
def viewDemo : GameState :=
  { phase := .playing, round_number := 2, cards_per_player := 2, deck := [],
    hands := [("p", [{ suit := Suit.hearts, rank := Rank.ace }]),
              ("q", [{ suit := Suit.spades, rank := Rank.king }])],
    current_trick := { lead_suit := some Suit.clubs,
                       cards := [("q", { suit := Suit.clubs, rank := Rank.two })] },
    completed_tricks := [], round_scores := [],
    total_scores := [("p", 11), ("q", -1)], trump_suit := some Suit.diamonds,
    player_bids := [("p", 1), ("q", 0)], tricks_won := [("p", 0), ("q", 0)],
    current_player := "p", first_bidder := "q",
    bidding_state := none,
    players := ["p", "q"] }

/-- `viewDemo`'s hands with the OTHER player's (`"q"`'s) hand replaced. -/
def viewDemoHands2 : List (PlayerId × List Card) :=
  [("p", [{ suit := Suit.hearts, rank := Rank.ace }]),
   ("q", [{ suit := Suit.diamonds, rank := Rank.nine },
          { suit := Suit.clubs, rank := Rank.jack }])]

/-- A lobby with room left whose member `"m"` is already in the list. -/
def lobbyDemo : Lobby :=
  { id := "L", host := "h", players := ["h", "m"], max_players := 4 }

/-! ## Theorems -/

/-- C1: the conservation invariant fails on the code.  Immediately after
`GameState::new` (round 1, 4 players, a possible shuffle outcome), the total
number of cards in all hands plus the current trick plus completed tricks
times players is 52, whereas the claimed invariant requires it to equal
`cards_per_player * |players| = 1 * 4 = 4`: `Deck::deal` deals the whole
deck, not `cards_per_player` cards each. -/
theorem conservation_fails_after_deal :
    (conservation_demo.hands.map fun kv => kv.2.length).sum
        + conservation_demo.current_trick.cards.length
        + conservation_demo.completed_tricks.length * conservation_demo.players.length = 52
    ∧ conservation_demo.cards_per_player * conservation_demo.players.length = 4 :=
  ⟨rfl, rfl⟩

/-- C2: after `start_round` in round 1 with 4 players, every hand has 13
cards, not `cards_per_player = round_number = 1` as the claim (and the
repository's own integration test `test_game_initialization_and_card_dealing`)
requires: `Deck::deal` ignores `cards_per_player` and deals all 52 cards. -/
theorem deal_gives_whole_deck_not_round_number :
    conservation_demo.round_number = 1
    ∧ conservation_demo.cards_per_player = 1
    ∧ (conservation_demo.hands.map fun kv => kv.2.length) = [13, 13, 13, 13] :=
  ⟨rfl, rfl, rfl⟩

/-- C3: the auto action can fail validation.  In the reachable bidding state
`autoBugState` (2 players, round 1, prior bids sum to the card count, last
bidder to act), `get_auto_action` returns `Bid(0)` unconditionally — it never
falls back to 1 — and `validate_action` rejects that bid as an
`InvalidMove` under the last-bidder rule. -/
theorem auto_action_fails_validation :
    autoBugState.get_auto_action = some (PlayerAction.bid { tricks := 0 })
    ∧ isInvalidMoveO
        (autoBugState.validate_action "p1" (PlayerAction.bid { tricks := 0 })) = true :=
  ⟨rfl, rfl⟩

/-- C9: the view sent to player `p` depends on no other player's hand: two
states that differ only in the `hands` map, while `p`'s own hand is
unchanged, produce identical views for `p`. -/
theorem player_view_ignores_other_hands (s : GameState)
    (hands2 : List (PlayerId × List Card)) (p : PlayerId) (gid : String)
    (hp : alookup hands2 p = alookup s.hands p) :
    GameState.get_player_view { s with hands := hands2 } p gid
      = s.get_player_view p gid := by
  unfold GameState.get_player_view
  rw [show ({ s with hands := hands2 } : GameState).hands = hands2 from rfl, hp]

/-- Witness for C9 at a concrete pair of states differing in `"q"`'s
hand. -/
theorem player_view_ignores_other_hands_witness :
    GameState.get_player_view { viewDemo with hands := viewDemoHands2 } "p" "g"
      = viewDemo.get_player_view "p" "g" :=
  player_view_ignores_other_hands viewDemo viewDemoHands2 "p" "g" rfl

/-- C10: `join_lobby` is idempotent at the membership level: joining a lobby
that is not full as an existing member returns `Ok` with the member list
unchanged, and (from a duplicate-free list) no join ever introduces a
duplicate member. -/
theorem join_lobby_idempotent (l : Lobby) (p : PlayerId)
    (hfull : l.is_full = false) (hmem : p ∈ l.players) :
    join_lobby l p = .ok l
    ∧ (l.players.Nodup →
        ∀ q l', join_lobby l q = Except.ok l' → l'.players.Nodup) := by
  constructor
  · simp [join_lobby, hfull, hmem]
  · intro hnd q l' hj
    unfold join_lobby at hj
    rw [hfull] at hj
    simp only [Bool.false_eq_true, if_false] at hj
    by_cases hq : q ∈ l.players
    · simp [hq] at hj
      rw [← hj]
      exact hnd
    · simp [hq] at hj
      rw [← hj]
      simpa [List.nodup_append] using ⟨hnd, hq⟩

/-- Witness for C10: the member `"m"` of the non-full `lobbyDemo` rejoins
and the lobby is unchanged. -/
theorem join_lobby_idempotent_witness :
    join_lobby lobbyDemo "m" = .ok lobbyDemo :=
  (join_lobby_idempotent lobbyDemo "m" rfl (by decide)).1

/-- C7: membership in `valid_plays` is exactly: the card is in the hand,
and whenever a lead suit is set and the hand holds at least one card of
that suit, the card follows it.  (With no lead suit, or a hand void in the
lead suit, every card in the hand is legal.) -/
theorem valid_plays_exactly (cards : List Card) (lead_suit : Option Suit) (c : Card) :
    c ∈ Hand.valid_plays cards lead_suit ↔
      c ∈ cards ∧ ∀ su, lead_suit = some su → (∃ d ∈ cards, d.suit = su) → c.suit = su := by
  cases lead_suit with
  | none => simp [Hand.valid_plays]
  | some su =>
      simp only [Hand.valid_plays]
      by_cases hvoid : (cards.filter fun d => d.suit == su).isEmpty
      · rw [if_pos hvoid]
        have hnone : ∀ d ∈ cards, d.suit ≠ su := by
          intro d hd
          have := List.isEmpty_iff.mp hvoid
          intro hds
          have : d ∈ (cards.filter fun d => d.suit == su) :=
            List.mem_filter.mpr ⟨hd, by simp [hds]⟩
          simp_all
        constructor
        · intro hc
          refine ⟨hc, ?_⟩
          intro su' hsu hex
          obtain ⟨d, hd, hds⟩ := hex
          cases hsu
          exact absurd hds (hnone d hd)
        · intro h
          exact h.1
      · rw [if_neg hvoid]
        constructor
        · intro hc
          have hc' := List.mem_filter.mp hc
          refine ⟨hc'.1, ?_⟩
          intro su' hsu _
          cases hsu
          simpa using hc'.2
        · intro ⟨hc, hfollow⟩
          have hex : ∃ d ∈ cards, d.suit = su := by
            simpa [List.isEmpty_iff] using hvoid
          exact List.mem_filter.mpr ⟨hc, by simp [hfollow su rfl hex]⟩

/-- Witness for C7: in a hand holding the ace of hearts and king of spades
with hearts led, the ace of hearts is a legal play. -/
theorem valid_plays_exactly_witness :
    ({ suit := Suit.hearts, rank := Rank.ace } : Card)
      ∈ Hand.valid_plays
          [{ suit := Suit.hearts, rank := Rank.ace },
           { suit := Suit.spades, rank := Rank.king }] (some Suit.hearts) :=
  (valid_plays_exactly _ _ _).mpr
    ⟨by decide, by intro su hsu hex; cases hsu; rfl⟩

/-- Looking a bidder up in the round-score table computed by
`calculate_round_scores` gives that bidder's player score. -/
theorem alookup_round_scores (tricks : List (PlayerId × Nat)) :
    ∀ (bids : List (PlayerId × Nat)) (p : PlayerId) (b : Nat),
      alookup bids p = some b →
      alookup (ScoreCalculator.calculate_round_scores bids tricks) p
        = some (ScoreCalculator.calculate_player_score b ((alookup tricks p).getD 0))
  | [], p, b, hb => by simp [alookup] at hb
  | (k, v) :: rest, p, b, hb => by
      by_cases hk : k = p
      · subst hk
        simp only [alookup, beq_iff_eq, if_pos rfl] at hb
        cases hb
        simp [ScoreCalculator.calculate_round_scores, alookup]
      · simp only [alookup, beq_iff_eq, if_neg hk] at hb
        simp only [ScoreCalculator.calculate_round_scores, List.map, alookup,
          beq_iff_eq, if_neg hk]
        exact alookup_round_scores tricks rest p b hb

/-- `aaddInt` at a different key does not change a lookup. -/
theorem alookup_aaddInt_ne : ∀ (m : List (PlayerId × Int)) (k p : PlayerId) (v : Int),
    k ≠ p → alookup (aaddInt m k v) p = alookup m p
  | [], k, p, v, h => by simp [aaddInt, alookup, h]
  | (k', v') :: rest, k, p, v, h => by
      by_cases hk : k' = k
      · subst hk
        simp [aaddInt, alookup, h]
      · simp only [aaddInt, beq_iff_eq, if_neg hk, alookup]
        by_cases hp : k' = p
        · simp [hp]
        · simp only [beq_iff_eq, if_neg hp]
          exact alookup_aaddInt_ne rest k p v h

/-- `aaddInt` at key `p` adds to the (defaulted) looked-up value. -/
theorem alookup_aaddInt_self : ∀ (m : List (PlayerId × Int)) (p : PlayerId) (v : Int),
    alookup (aaddInt m p v) p = some ((alookup m p).getD 0 + v)
  | [], p, v => by simp [aaddInt, alookup]
  | (k', v') :: rest, p, v => by
      by_cases hk : k' = p
      · subst hk
        simp [aaddInt, alookup]
      · simp only [aaddInt, beq_iff_eq, if_neg hk, alookup]
        exact alookup_aaddInt_self rest p v

/-- Folding `aaddInt` over entries whose keys avoid `p` does not change the
lookup at `p`. -/
theorem alookup_fold_aaddInt_notmem :
    ∀ (l : List (PlayerId × Int)) (m : List (PlayerId × Int)) (p : PlayerId),
      p ∉ l.map Prod.fst →
      alookup (l.foldl (fun acc e => aaddInt acc e.1 e.2) m) p = alookup m p
  | [], _, _, _ => rfl
  | (k, v) :: rest, m, p, h => by
      simp only [List.map, List.mem_cons, not_or] at h
      rw [List.foldl_cons,
        alookup_fold_aaddInt_notmem rest (aaddInt m k v) p h.2,
        alookup_aaddInt_ne m k p v (fun hk => h.1 hk.symm)]

/-- Folding `aaddInt` over a duplicate-key-free list adds exactly the entry
at `p` (if any) to the lookup at `p`. -/
theorem alookup_fold_aaddInt :
    ∀ (l : List (PlayerId × Int)) (m : List (PlayerId × Int)) (p : PlayerId),
      (l.map Prod.fst).Nodup →
      alookup (l.foldl (fun acc e => aaddInt acc e.1 e.2) m) p
        = match alookup l p with
          | some v => some ((alookup m p).getD 0 + v)
          | none => alookup m p
  | [], _, _, _ => rfl
  | (k, v) :: rest, m, p, hnd => by
      simp only [List.map, List.nodup_cons] at hnd
      by_cases hk : k = p
      · subst hk
        rw [List.foldl_cons, alookup_fold_aaddInt_notmem rest _ _ hnd.1,
          alookup_aaddInt_self]
        simp [alookup]
      · rw [List.foldl_cons, alookup_fold_aaddInt rest (aaddInt m k v) p hnd.2,
          alookup_aaddInt_ne m k p v hk]
        simp only [alookup, beq_iff_eq, if_neg hk]

/-- `calculate_player_score` equals the spec's formula `b = t ? 10 + t² :
−(t−b)²`. -/
theorem calculate_player_score_formula (bid tricks_won : Nat) :
    ScoreCalculator.calculate_player_score bid tricks_won
      = if bid = tricks_won then 10 + (tricks_won : Int) ^ 2
        else -(((tricks_won : Int) - (bid : Int)) ^ 2) := by
  unfold ScoreCalculator.calculate_player_score
  by_cases h : bid = tricks_won
  · simp [h, sq]
  · simp only [if_neg h]
    rw [abs_mul_abs_self, sq]

/-- C6: the scoring law.  For every player `p` with recorded bid `b`, the
round score computed by `calculate_round_scores` is `10 + t²` when `b = t`
and `−(t − b)²` otherwise (`t` the tricks won, defaulting to 0), and
exactly that amount is added to `p`'s total score. -/
theorem round_scoring_law (s : GameState) (p : PlayerId) (b : Nat)
    (hb : alookup s.player_bids p = some b)
    (hnd : (s.player_bids.map Prod.fst).Nodup) :
    alookup s.calculate_round_scores.round_scores p
      = some (if b = (alookup s.tricks_won p).getD 0
              then 10 + (((alookup s.tricks_won p).getD 0 : Nat) : Int) ^ 2
              else -(((((alookup s.tricks_won p).getD 0 : Nat) : Int) - (b : Int)) ^ 2))
    ∧ alookup s.calculate_round_scores.total_scores p
      = some ((alookup s.total_scores p).getD 0
          + (if b = (alookup s.tricks_won p).getD 0
             then 10 + (((alookup s.tricks_won p).getD 0 : Nat) : Int) ^ 2
             else -(((((alookup s.tricks_won p).getD 0 : Nat) : Int) - (b : Int)) ^ 2))) := by
  have hround : alookup s.calculate_round_scores.round_scores p
      = some (ScoreCalculator.calculate_player_score b ((alookup s.tricks_won p).getD 0)) := by
    show alookup (ScoreCalculator.calculate_round_scores s.player_bids s.tricks_won) p = _
    exact alookup_round_scores s.tricks_won s.player_bids p b hb
  have hkeys : (ScoreCalculator.calculate_round_scores s.player_bids s.tricks_won).map Prod.fst
      = s.player_bids.map Prod.fst := by
    unfold ScoreCalculator.calculate_round_scores
    rw [List.map_map]
    rfl
  constructor
  · rw [hround, calculate_player_score_formula]
  · show alookup ((ScoreCalculator.calculate_round_scores s.player_bids s.tricks_won).foldl
        (fun m ps => aaddInt m ps.1 ps.2) s.total_scores) p = _
    rw [alookup_fold_aaddInt _ s.total_scores p (by rw [hkeys]; exact hnd)]
    rw [show alookup (ScoreCalculator.calculate_round_scores s.player_bids s.tricks_won) p
        = some (ScoreCalculator.calculate_player_score b ((alookup s.tricks_won p).getD 0))
        from hround]
    rw [calculate_player_score_formula]

/-- Witness for C6: in `scoringDemo`, player `"p"` bid 2 and won 3 tricks,
so the round adds `−(3−2)² = −1` to the prior total of 5. -/
theorem round_scoring_law_witness :
    alookup scoringDemo.calculate_round_scores.total_scores "p" = some 4 := by
  have h := (round_scoring_law scoringDemo "p" 2 rfl (by decide)).2
  simpa using h

/-- The spec's pairwise rule is transitive: the deciding case analysis is
on the middle card's trump/lead status, which both hypotheses constrain. -/
theorem beatsSpec_trans {a b c : Card} {trump : Option Suit} {lead : Suit}
    (hab : beatsSpec a b trump lead) (hbc : beatsSpec b c trump lead) :
    beatsSpec a c trump lead := by
  rcases hab with ⟨ha2, hb2⟩ | ⟨ha2, hb2, hr1⟩ | ⟨ha2, hb2, hal, hbl⟩
    | ⟨ha2, hb2, hal, hbl, hr1⟩ <;>
  rcases hbc with ⟨hb2', hc2⟩ | ⟨hb2', hc2, hr2⟩ | ⟨hb2', hc2, hbl', hcl⟩
    | ⟨hb2', hc2, hbl', hcl, hr2⟩ <;>
  first
    | exact absurd hb2' hb2
    | exact absurd hb2 hb2'
    | exact absurd hbl' hbl
    | exact Or.inl ⟨ha2, hc2⟩
    | exact Or.inr (Or.inl ⟨ha2, hc2, Nat.lt_trans hr2 hr1⟩)
    | exact Or.inr (Or.inr (Or.inl ⟨ha2, hc2, hal, hcl⟩))
    | exact Or.inr (Or.inr (Or.inr ⟨ha2, hc2, hal, hcl, Nat.lt_trans hr2 hr1⟩))

/-- `rankValue` is injective (ranks with equal values are equal). -/
theorem rankValue_injective : ∀ r1 r2 : Rank, rankValue r1 = rankValue r2 → r1 = r2 := by
  intro r1 r2
  cases r1 <;> cases r2 <;> decide

/-- When the currently-winning card `w` is trump or follows lead and the
code's `Card::beats` says `c` beats it, the spec's rule agrees, and `c` is
itself trump or follows lead. -/
theorem beats_true_spec (c w : Card) (trump : Option Suit) (lead : Suit)
    (hw : trump = some w.suit ∨ w.suit = lead)
    (hb : Card.beats c w trump lead = true) :
    beatsSpec c w trump lead ∧ (trump = some c.suit ∨ c.suit = lead) := by
  cases trump with
  | none =>
      have hwl : w.suit = lead := by
        rcases hw with h | h
        · exact absurd h (by simp)
        · exact h
      simp only [Card.beats, Bool.false_and, Bool.not_false, Bool.true_and,
        Bool.and_false, if_false] at hb
      by_cases hcw : c.suit = w.suit
      · rw [if_pos hcw] at hb
        have hr : rankValue w.rank < rankValue c.rank := by simpa using hb
        exact ⟨Or.inr (Or.inr (Or.inr ⟨by simp, by simp, hcw.trans hwl, hwl, hr⟩)),
          Or.inr (hcw.trans hwl)⟩
      · rw [if_neg hcw] at hb
        have hcl : c.suit = lead := by simpa using hb
        exact absurd (hcl.trans hwl.symm) hcw
  | some t =>
      by_cases hct : c.suit = t <;> by_cases hwt : w.suit = t
      · -- both trump: same suit, rank comparison
        have hcw : c.suit = w.suit := hct.trans hwt.symm
        have hr : rankValue w.rank < rankValue c.rank := by
          simpa [Card.beats, hct, hwt] using hb
        exact ⟨Or.inr (Or.inl ⟨by rw [hct], by rw [hwt], hr⟩), Or.inl (by rw [hct])⟩
      · -- c trump, w not: rule 1
        exact ⟨Or.inl ⟨by rw [hct], fun h => hwt (Option.some.inj h).symm⟩,
          Or.inl (by rw [hct])⟩
      · -- w trump, c not: the code returns false, contradiction
        simp [Card.beats, hct, hwt] at hb
      · -- neither trump
        have hwl : w.suit = lead := by
          rcases hw with h | h
          · exact absurd (Option.some.inj h).symm hwt
          · exact h
        have hnt_w : (some t : Option Suit) ≠ some w.suit := fun h =>
          hwt (Option.some.inj h).symm
        have hnt_c : (some t : Option Suit) ≠ some c.suit := fun h =>
          hct (Option.some.inj h).symm
        by_cases hcw : c.suit = w.suit
        · have hr : rankValue w.rank < rankValue c.rank := by
            simpa [Card.beats, hct, hwt, hcw] using hb
          exact ⟨Or.inr (Or.inr (Or.inr ⟨hnt_c, hnt_w, hcw.trans hwl, hwl, hr⟩)),
            Or.inr (hcw.trans hwl)⟩
        · have hcl : c.suit = lead := by
            simpa [Card.beats, hct, hwt, hcw] using hb
          exact absurd (hcl.trans hwl.symm) hcw

/-- When the currently-winning card `w` is trump or follows lead and the
code's `Card::beats` says `c` does NOT beat it, the spec's rule says `w`
beats `c` — unless the two cards are identical. -/
theorem beats_false_spec (c w : Card) (trump : Option Suit) (lead : Suit)
    (hw : trump = some w.suit ∨ w.suit = lead)
    (hb : Card.beats c w trump lead = false) :
    beatsSpec w c trump lead ∨ c = w := by
  have card_eq : c.suit = w.suit → rankValue c.rank = rankValue w.rank → c = w := by
    intro hs hr
    cases c
    cases w
    simp_all
    exact rankValue_injective _ _ hr
  cases trump with
  | none =>
      have hwl : w.suit = lead := by
        rcases hw with h | h
        · exact absurd h (by simp)
        · exact h
      simp only [Card.beats, Bool.false_and, Bool.not_false, Bool.true_and,
        Bool.and_false, if_false] at hb
      by_cases hcw : c.suit = w.suit
      · rw [if_pos hcw] at hb
        have hr : ¬ rankValue w.rank < rankValue c.rank := by simpa using hb
        rcases Nat.lt_or_ge (rankValue c.rank) (rankValue w.rank) with hlt | hge
        · exact Or.inl (Or.inr (Or.inr (Or.inr
            ⟨by simp, by simp, hwl, hcw.trans hwl, hlt⟩)))
        · exact Or.inr (card_eq hcw (Nat.le_antisymm (Nat.not_lt.mp hr) hge))
      · rw [if_neg hcw] at hb
        have hcl : c.suit ≠ lead := by simpa using hb
        exact Or.inl (Or.inr (Or.inr (Or.inl ⟨by simp, by simp, hwl, hcl⟩)))
  | some t =>
      by_cases hct : c.suit = t <;> by_cases hwt : w.suit = t
      · -- both trump
        have hcw : c.suit = w.suit := hct.trans hwt.symm
        have hr : ¬ rankValue w.rank < rankValue c.rank := by
          simpa [Card.beats, hct, hwt] using hb
        rcases Nat.lt_or_ge (rankValue c.rank) (rankValue w.rank) with hlt | hge
        · exact Or.inl (Or.inr (Or.inl ⟨by rw [hwt], by rw [hct], hlt⟩))
        · exact Or.inr (card_eq hcw (Nat.le_antisymm (Nat.not_lt.mp hr) hge))
      · -- c trump, w not: contradiction with hb
        simp [Card.beats, hct, hwt] at hb
      · -- w trump, c not: rule 1 for w
        exact Or.inl (Or.inl ⟨by rw [hwt], fun h => hct (Option.some.inj h).symm⟩)
      · -- neither trump
        have hwl : w.suit = lead := by
          rcases hw with h | h
          · exact absurd (Option.some.inj h).symm hwt
          · exact h
        have hnt_w : (some t : Option Suit) ≠ some w.suit := fun h =>
          hwt (Option.some.inj h).symm
        have hnt_c : (some t : Option Suit) ≠ some c.suit := fun h =>
          hct (Option.some.inj h).symm
        by_cases hcw : c.suit = w.suit
        · have hr : ¬ rankValue w.rank < rankValue c.rank := by
            simpa [Card.beats, hct, hwt, hcw] using hb
          rcases Nat.lt_or_ge (rankValue c.rank) (rankValue w.rank) with hlt | hge
          · exact Or.inl (Or.inr (Or.inr (Or.inr
              ⟨hnt_w, hnt_c, hwl, hcw.trans hwl, hlt⟩)))
          · exact Or.inr (card_eq hcw (Nat.le_antisymm (Nat.not_lt.mp hr) hge))
        · have hcl : c.suit ≠ lead := by
            simpa [Card.beats, hct, hwt, hcw] using hb
          exact Or.inl (Or.inr (Or.inr (Or.inl ⟨hnt_w, hnt_c, hwl, hcl⟩)))

/-- Invariant of the fold inside `Trick::winner`: starting from a card that
is trump or follows lead, the fold result is trump or follows lead, is the
start or one of the folded entries, and its card beats (per the spec rule)
the starting card and every folded card of a different value. -/
theorem winner_fold_spec (trump : Option Suit) (lead : Suit) :
    ∀ (rest : List (PlayerId × Card)) (acc : PlayerId × Card),
      (trump = some acc.2.suit ∨ acc.2.suit = lead) →
      (trump = some (rest.foldl
          (fun acc pc => if Card.beats pc.2 acc.2 trump lead then pc else acc) acc).2.suit
        ∨ (rest.foldl
          (fun acc pc => if Card.beats pc.2 acc.2 trump lead then pc else acc) acc).2.suit
            = lead)
      ∧ ((rest.foldl
          (fun acc pc => if Card.beats pc.2 acc.2 trump lead then pc else acc) acc) = acc
        ∨ (rest.foldl
          (fun acc pc => if Card.beats pc.2 acc.2 trump lead then pc else acc) acc) ∈ rest)
      ∧ (∀ pc ∈ rest,
          pc.2 ≠ (rest.foldl
            (fun acc pc => if Card.beats pc.2 acc.2 trump lead then pc else acc) acc).2 →
          beatsSpec (rest.foldl
            (fun acc pc => if Card.beats pc.2 acc.2 trump lead then pc else acc) acc).2
            pc.2 trump lead)
      ∧ ((rest.foldl
            (fun acc pc => if Card.beats pc.2 acc.2 trump lead then pc else acc) acc).2
            ≠ acc.2 →
          beatsSpec (rest.foldl
            (fun acc pc => if Card.beats pc.2 acc.2 trump lead then pc else acc) acc).2
            acc.2 trump lead)
  | [], acc, h => ⟨h, Or.inl rfl, by simp, fun hne => absurd rfl hne⟩
  | pc :: rest, acc, h => by
      rw [List.foldl_cons]
      by_cases hb : Card.beats pc.2 acc.2 trump lead = true
      · rw [if_pos hb]
        obtain ⟨hspec, htl⟩ := beats_true_spec pc.2 acc.2 trump lead h hb
        obtain ⟨ihTL, ihMem, ihAll, ihAcc⟩ := winner_fold_spec trump lead rest pc htl
        refine ⟨ihTL, ?_, ?_, ?_⟩
        · rcases ihMem with hm | hm
          · exact Or.inr (by rw [hm]; exact List.mem_cons_self pc rest)
          · exact Or.inr (List.mem_cons_of_mem pc hm)
        · intro qc hqc hne
          rcases List.mem_cons.mp hqc with hq | hq
          · subst hq
            exact ihAcc (fun hp => hne hp.symm)
          · exact ihAll qc hq hne
        · intro hne
          by_cases hrp :
              (rest.foldl
                (fun acc pc => if Card.beats pc.2 acc.2 trump lead then pc else acc) pc).2
              = pc.2
          · rw [hrp]
            exact hspec
          · exact beatsSpec_trans (ihAcc hrp) hspec
      · rw [if_neg hb]
        have hb' : Card.beats pc.2 acc.2 trump lead = false := by
          simpa using hb
        obtain ⟨ihTL, ihMem, ihAll, ihAcc⟩ := winner_fold_spec trump lead rest acc h
        have hbeat : ∀ x, x ≠ acc.2 →
            beatsSpec x acc.2 trump lead → beatsSpec x pc.2 trump lead ∨ pc.2 = acc.2 := by
          intro x _ hx
          rcases beats_false_spec pc.2 acc.2 trump lead h hb' with hwb | heq
          · exact Or.inl (beatsSpec_trans hx hwb)
          · exact Or.inr heq
        refine ⟨ihTL, ?_, ?_, ihAcc⟩
        · rcases ihMem with hm | hm
          · exact Or.inl hm
          · exact Or.inr (List.mem_cons_of_mem pc hm)
        · intro qc hqc hne
          rcases List.mem_cons.mp hqc with hq | hq
          · subst hq
            by_cases hra :
                (rest.foldl
                  (fun acc pc => if Card.beats pc.2 acc.2 trump lead then pc else acc) acc).2
                = acc.2
            · rcases beats_false_spec qc.2 acc.2 trump lead h hb' with hwb | heq
              · rw [hra]
                exact hwb
              · rw [hra] at hne
                exact absurd heq hne
            · rcases hbeat _ hra (ihAcc hra) with hres | heq
              · exact hres
              · rw [heq]
                exact ihAcc hra
          · exact ihAll qc hq hne

/-- C4: for every non-empty trick whose lead suit is the suit of its first
card, the player returned by `Trick::winner` holds a card that beats every
other card of the trick pairwise under the spec's §4.1 rule
(`beatsSpec`). -/
theorem trick_winner_beats_all (t : Trick) (trump : Option Suit) (lead : Suit)
    (w : PlayerId)
    (hlead : t.lead_suit = some lead)
    (hfirst : t.cards.head?.map (fun pc => pc.2.suit) = some lead)
    (hw : t.winner trump = some w) :
    ∃ wc : Card, (w, wc) ∈ t.cards
      ∧ ∀ qc ∈ t.cards, qc.2 ≠ wc → beatsSpec wc qc.2 trump lead := by
  rcases hcards : t.cards with _ | ⟨first, rest⟩
  · simp [Trick.winner, hcards] at hw
  · have hw2 : t.winner trump
        = some (rest.foldl
            (fun acc pc => if Card.beats pc.2 acc.2 trump lead then pc else acc) first).1 := by
      unfold Trick.winner
      rw [hcards, hlead]
    have hw' :
        (rest.foldl
          (fun acc pc => if Card.beats pc.2 acc.2 trump lead then pc else acc) first).1
        = w := Option.some.inj (hw2.symm.trans hw)
    have hfl : first.2.suit = lead := by
      rw [hcards] at hfirst
      simpa using hfirst
    obtain ⟨_, hMem, hAll, hAcc⟩ := winner_fold_spec trump lead rest first (Or.inr hfl)
    refine ⟨(rest.foldl
      (fun acc pc => if Card.beats pc.2 acc.2 trump lead then pc else acc) first).2,
      ?_, ?_⟩
    · rw [← hw']
      rcases hMem with hm | hm
      · rw [hm]
        exact List.mem_cons_self first rest
      · exact List.mem_cons_of_mem first hm
    · intro qc hqc hne
      rcases List.mem_cons.mp hqc with hq | hq
      · subst hq
        exact hAcc (fun hp => hne hp.symm)
      · exact hAll qc hq hne

/-- Witness for C4 at the spec's scenario S4 (trump clubs, lead hearts,
plays H10, HA, C2): the winner `"P3"` holds the club 2, which beats both
hearts. -/
theorem trick_winner_beats_all_witness :
    ∃ wc : Card, ("P3", wc) ∈ trickS4.cards
      ∧ ∀ qc ∈ trickS4.cards, qc.2 ≠ wc →
          beatsSpec wc qc.2 (some Suit.clubs) Suit.hearts :=
  trick_winner_beats_all trickS4 (some Suit.clubs) Suit.hearts "P3" rfl rfl rfl

/-- C5 counterexample: the final, accepted bid does NOT advance the current
bidder.  In `finalBidDemo`, player `"y"`'s accepted last bid completes the
round and leaves `current_bidder = "y"`, whereas the claimed round-robin
advance would make it `"x"`. -/
theorem place_bid_final_bid_keeps_bidder :
    finalBidDemo.place_bid "y" 0
      = Except.ok { bids := [("x", 0), ("y", 0)], current_bidder := "y",
                    player_order := ["x", "y"], cards_this_round := 1 }
    ∧ nextInOrder finalBidDemo.player_order finalBidDemo.current_bidder = "x" :=
  ⟨rfl, rfl⟩

/-- Inserting a fresh key adds its value to the sum of the map's values. -/
theorem ainsert_sum_of_notmem :
    ∀ (m : List (PlayerId × Nat)) (p : PlayerId) (n : Nat),
      p ∉ m.map Prod.fst →
      ((ainsert m p n).map Prod.snd).sum = (m.map Prod.snd).sum + n
  | [], _, _, _ => by simp [ainsert]
  | (k, v) :: rest, p, n, h => by
      simp only [List.map, List.mem_cons, not_or] at h
      simp only [ainsert, beq_iff_eq]
      rw [if_neg (fun hk => h.1 hk.symm)]
      simp only [List.map, List.sum_cons]
      rw [ainsert_sum_of_notmem rest p n h.2]
      omega

/-- Inversion of a successful `place_bid`: the turn, range and last-bidder
checks passed, and the result's ledger is the insert of the new bid. -/
theorem place_bid_ok_inv (bs : BiddingState) (p : PlayerId) (n : Nat)
    (bs1 : BiddingState) (h : bs.place_bid p n = .ok bs1) :
    p = bs.current_bidder ∧ ¬ n > bs.cards_this_round
    ∧ (bs.is_last_bidder p = true → bs.validate_last_bid n = none)
    ∧ bs1.bids = ainsert bs.bids p n := by
  unfold BiddingState.place_bid at h
  by_cases h1 : p = bs.current_bidder
  · rw [if_neg (fun hne => hne h1)] at h
    by_cases h2 : n > bs.cards_this_round
    · rw [if_pos h2] at h
      exact absurd h (by simp)
    · rw [if_neg h2] at h
      cases hcheck : (if bs.is_last_bidder p then bs.validate_last_bid n else none) with
      | some e =>
          rw [hcheck] at h
          exact absurd h (by simp)
      | none =>
          rw [hcheck] at h
          refine ⟨h1, h2, ?_, ?_⟩
          · intro hl
            rwa [if_pos hl] at hcheck
          · by_cases hcomp :
                ({ bs with bids := ainsert bs.bids p n } : BiddingState).is_complete
            · rw [if_pos hcomp] at h
              cases h
              rfl
            · rw [if_neg hcomp] at h
              cases h
              rfl
  · rw [if_pos h1] at h
    exact absurd h (by simp)

/-- C5 (amended): `place_bid` fails `NotPlayerTurn` for a non-current
bidder, fails `InvalidMove` when the bid exceeds the round's card count,
fails `InvalidMove` when the last bidder would make the bids sum (as `u8`)
to the card count, and otherwise records the bid — advancing the current
bidder round-robin only when bidding is not yet complete (the source skips
the advance on the final bid).  Consequently an accepted final bid leaves
the completed ledger's bids summing to something other than the card
count. -/
theorem place_bid_spec (bs : BiddingState) (p : PlayerId) (n : Nat) :
    (p ≠ bs.current_bidder → bs.place_bid p n = .error .notPlayerTurn)
    ∧ (p = bs.current_bidder → n > bs.cards_this_round →
        isInvalidMoveE (bs.place_bid p n) = true)
    ∧ (p = bs.current_bidder → ¬ n > bs.cards_this_round →
        bs.is_last_bidder p = true →
        ((bs.bids.map Prod.snd).sum % 256 + n) % 256 = bs.cards_this_round % 256 →
        isInvalidMoveE (bs.place_bid p n) = true)
    ∧ (p = bs.current_bidder → ¬ n > bs.cards_this_round →
        (bs.is_last_bidder p = true →
          ((bs.bids.map Prod.snd).sum % 256 + n) % 256 ≠ bs.cards_this_round % 256) →
        ∃ bs1, bs.place_bid p n = .ok bs1
          ∧ bs1.bids = ainsert bs.bids p n
          ∧ bs1.player_order = bs.player_order
          ∧ bs1.cards_this_round = bs.cards_this_round
          ∧ (bs1.is_complete = false →
              bs1.current_bidder = nextInOrder bs.player_order bs.current_bidder))
    ∧ (∀ bs1, bs.place_bid p n = .ok bs1 → bs.is_last_bidder p = true →
        p ∉ bs.bids.map Prod.fst →
        (bs.bids.map Prod.snd).sum + n < 256 → bs.cards_this_round < 256 →
        (bs1.bids.map Prod.snd).sum ≠ bs.cards_this_round) := by
  refine ⟨?_, ?_, ?_, ?_, ?_⟩
  · intro h1
    unfold BiddingState.place_bid
    rw [if_pos h1]
  · intro h1 h2
    unfold BiddingState.place_bid
    rw [if_neg (fun hne => hne h1), if_pos h2]
    rfl
  · intro h1 h2 hl hsum
    have hcond : (((bs.bids.map Prod.snd).sum % 256 + n) % 256
        == bs.cards_this_round % 256) = true := by
      simp [hsum]
    have hv : bs.validate_last_bid n
        = some (.invalidMove ("Last bidder cannot bid " ++ toString n
            ++ " - sum would equal total cards ("
            ++ toString bs.cards_this_round ++ ")")) := by
      unfold BiddingState.validate_last_bid
      rw [if_pos hcond]
    unfold BiddingState.place_bid
    rw [if_neg (fun hne => hne h1), if_neg h2, if_pos hl, hv]
    rfl
  · intro h1 h2 h3
    have hscrut : (if bs.is_last_bidder p then bs.validate_last_bid n else none)
        = none := by
      cases hli : bs.is_last_bidder p
      · simp
      · rw [if_pos rfl]
        unfold BiddingState.validate_last_bid
        rw [if_neg (by simpa using h3 hli)]
    have hrec : bs.place_bid p n
        = (if ({ bs with bids := ainsert bs.bids p n } : BiddingState).is_complete
           then .ok { bs with bids := ainsert bs.bids p n }
           else .ok ({ bs with bids := ainsert bs.bids p n } : BiddingState).advance_bidder) := by
      unfold BiddingState.place_bid
      rw [if_neg (fun hne => hne h1), if_neg h2, hscrut]
    by_cases hcomp : ({ bs with bids := ainsert bs.bids p n } : BiddingState).is_complete
    · refine ⟨{ bs with bids := ainsert bs.bids p n }, ?_, rfl, rfl, rfl, ?_⟩
      · rw [hrec, if_pos hcomp]
      · intro hf
        rw [hcomp] at hf
        exact Bool.noConfusion hf
    · refine ⟨({ bs with bids := ainsert bs.bids p n } : BiddingState).advance_bidder,
        ?_, rfl, rfl, rfl, ?_⟩
      · rw [hrec, if_neg hcomp]
      · intro _
        rfl
  · intro bs1 hok hl hnot hb1 hb2
    obtain ⟨_, _, hval, hbids⟩ := place_bid_ok_inv bs p n bs1 hok
    have hv := hval hl
    unfold BiddingState.validate_last_bid at hv
    by_cases hc : ((bs.bids.map Prod.snd).sum % 256 + n) % 256
        = bs.cards_this_round % 256
    · rw [if_pos (by simp [hc])] at hv
      exact absurd hv (by simp)
    · intro heq
      apply hc
      rw [hbids, ainsert_sum_of_notmem bs.bids p n hnot] at heq
      omega

/-- Witness for C5: applying the amended theorem at `finalBidDemo`, a bid
by `"z"` (not the current bidder) is rejected with `NotPlayerTurn`. -/
theorem place_bid_spec_witness :
    finalBidDemo.place_bid "z" 0 = Except.error GameError.notPlayerTurn :=
  (place_bid_spec finalBidDemo "z" 0).1 (by decide)

/-- C8 counterexample: a failing `apply_action` CAN mutate the state.  In
`outOfSyncState` (game-level `current_player` ahead of the ledger's
`current_bidder`), validation passes for `"a"`, the bid is inserted into
`player_bids`, and only then does `place_bid` fail — the error is returned
with the insert retained. -/
theorem apply_action_mutates_on_error :
    (outOfSyncState.apply_action "a" (PlayerAction.bid { tricks := 0 }) []
      Suit.clubs).2 = some GameError.notPlayerTurn
    ∧ (outOfSyncState.apply_action "a" (PlayerAction.bid { tricks := 0 }) []
        Suit.clubs).1 ≠ outOfSyncState := by
  refine ⟨rfl, ?_⟩
  decide

/-- A non-empty trick with a set lead suit always has a winner. -/
theorem winner_isSome (t : Trick) (trump : Option Suit) (h1 : t.cards ≠ [])
    (h2 : t.lead_suit.isSome = true) : (t.winner trump).isSome = true := by
  rcases hc : t.cards with _ | ⟨first, rest⟩
  · exact absurd hc h1
  · rcases hl : t.lead_suit with _ | ls
    · rw [hl] at h2
      exact Bool.noConfusion h2
    · unfold Trick.winner
      rw [hc, hl]
      rfl

/-- `complete_trick` never returns an error when the current trick is
non-empty with a lead suit: the winner exists and every branch afterwards
succeeds. -/
theorem complete_trick_snd_none (s : GameState) (d : List Card) (tr : Suit)
    (h1 : s.current_trick.cards ≠ []) (h2 : s.current_trick.lead_suit.isSome = true) :
    (s.complete_trick d tr).2 = none := by
  unfold GameState.complete_trick
  split
  · rename_i heq
    have hwi := winner_isSome s.current_trick s.trump_suit h1 h2
    rw [heq] at hwi
    exact Bool.noConfusion hwi
  · dsimp only
    split
    · split
      · rfl
      · rfl
    · rfl

/-- The tail of the `PlayCard` branch never returns an error (the added
card makes the trick non-empty and gives it a lead suit). -/
theorem play_card_rest_snd_none (s : GameState) (p : PlayerId) (c : Card)
    (d : List Card) (tr : Suit)
    (h2 : s.current_trick.cards ≠ [] → s.current_trick.lead_suit.isSome = true) :
    (GameState.play_card_rest s p c d tr).2 = none := by
  unfold GameState.play_card_rest
  dsimp only
  split
  · apply complete_trick_snd_none
    · show (s.current_trick.add_card p c).cards ≠ []
      unfold Trick.add_card
      simp
    · show (s.current_trick.add_card p c).lead_suit.isSome = true
      unfold Trick.add_card
      by_cases he : s.current_trick.cards.isEmpty
      · simp [he]
      · have hne : s.current_trick.cards ≠ [] := by
          simpa [List.isEmpty_iff] using he
        simp [he]
        exact h2 hne
  · rfl

/-- Inversion of `validate_action p (Bid b) = Ok`: right turn, bidding
phase, and the bid validates. -/
theorem validate_action_bid_inv (s : GameState) (p : PlayerId) (b : Bid)
    (h : s.validate_action p (.bid b) = none) :
    p = s.current_player ∧ s.phase = GamePhase.bidding
    ∧ s.validate_bid p b.tricks = none := by
  unfold GameState.validate_action at h
  by_cases h1 : p = s.current_player
  · rw [if_neg (fun hne => hne h1)] at h
    by_cases h2 : s.players.contains p
    · rw [if_neg (fun hn => hn h2)] at h
      have h' : (if s.phase ≠ GamePhase.bidding
          then some (GameError.invalidMove "Not in bidding phase")
          else s.validate_bid p b.tricks) = none := h
      by_cases h3 : s.phase = GamePhase.bidding
      · rw [if_neg (fun hne => hne h3)] at h'
        exact ⟨h1, h3, h'⟩
      · rw [if_pos h3] at h'
        exact absurd h' (by simp)
    · rw [if_pos h2] at h
      exact absurd h (by simp)
  · rw [if_pos h1] at h
    exact absurd h (by simp)

/-- Inversion of `validate_action p (PlayCard c) = Ok`: right turn, playing
phase, the card is in the player's hand and among the legal plays. -/
theorem validate_action_play_inv (s : GameState) (p : PlayerId) (c : Card)
    (h : s.validate_action p (.playCard c) = none) :
    p = s.current_player ∧ s.phase = GamePhase.playing
    ∧ ∃ hand, alookup s.hands p = some hand
        ∧ Hand.has_card hand c = true
        ∧ (Hand.valid_plays hand s.current_trick.lead_suit).contains c = true := by
  unfold GameState.validate_action at h
  by_cases h1 : p = s.current_player
  · rw [if_neg (fun hne => hne h1)] at h
    by_cases h2 : s.players.contains p = true
    · rw [if_neg (fun hn => hn h2)] at h
      have h' : (if s.phase ≠ GamePhase.playing
          then some (GameError.invalidMove "Not in playing phase")
          else match alookup s.hands p with
            | none => some GameError.playerNotInGame
            | some hand =>
                if ¬ Hand.has_card hand c then
                  some (GameError.invalidMove "Card not in hand")
                else if ¬ (Hand.valid_plays hand s.current_trick.lead_suit).contains c then
                  some (GameError.invalidMove "Must follow suit if possible")
                else none) = none := h
      by_cases h3 : s.phase = GamePhase.playing
      · rw [if_neg (fun hne => hne h3)] at h'
        cases hhand : alookup s.hands p with
        | none =>
            rw [hhand] at h'
            have h'' : (some GameError.playerNotInGame : Option GameError) = none := h'
            exact absurd h'' (by simp)
        | some hand =>
            rw [hhand] at h'
            have h'' : (if ¬ Hand.has_card hand c then
                  some (GameError.invalidMove "Card not in hand")
                else if ¬ (Hand.valid_plays hand s.current_trick.lead_suit).contains c then
                  some (GameError.invalidMove "Must follow suit if possible")
                else none) = none := h'
            by_cases h4 : Hand.has_card hand c = true
            · rw [if_neg (fun hn => hn h4)] at h''
              by_cases h5 : (Hand.valid_plays hand s.current_trick.lead_suit).contains c
                  = true
              · rw [if_neg (fun hn => hn h5)] at h''
                exact ⟨h1, h3, hand, rfl, h4, h5⟩
              · rw [if_pos h5] at h''
                exact absurd h'' (by simp)
            · rw [if_pos h4] at h''
              exact absurd h'' (by simp)
      · rw [if_pos h3] at h'
        exact absurd h' (by simp)
    · rw [if_pos h2] at h
      exact absurd h (by simp)
  · rw [if_pos h1] at h
    exact absurd h (by simp)

/-- Inversion of `validate_bid = Ok`: the bid is within range and, for the
last bidder, the ledger's sum check passes. -/
theorem validate_bid_none_inv (s : GameState) (p : PlayerId) (n : Nat)
    (h : s.validate_bid p n = none) :
    ¬ n > s.cards_per_player
    ∧ (∀ bs, s.bidding_state = some bs → bs.is_last_bidder p = true →
        bs.validate_last_bid n = none) := by
  unfold GameState.validate_bid at h
  by_cases h1 : n > s.cards_per_player
  · rw [if_pos h1] at h
    exact absurd h (by simp)
  · rw [if_neg h1] at h
    refine ⟨h1, ?_⟩
    intro bs hbs hl
    rw [hbs] at h
    have h' : (if bs.is_last_bidder p then bs.validate_last_bid n else none) = none := h
    rwa [if_pos hl] at h'

/-- `place_bid` succeeds when the turn, range and last-bidder checks all
pass. -/
theorem place_bid_ok_of (bs : BiddingState) (p : PlayerId) (n : Nat)
    (h1 : p = bs.current_bidder) (h2 : ¬ n > bs.cards_this_round)
    (h3 : bs.is_last_bidder p = true → bs.validate_last_bid n = none) :
    ∃ bs1, bs.place_bid p n = .ok bs1 := by
  have hscrut : (if bs.is_last_bidder p then bs.validate_last_bid n else none)
      = none := by
    cases hli : bs.is_last_bidder p
    · simp
    · rw [if_pos rfl]
      exact h3 hli
  have hrec : bs.place_bid p n
      = (if ({ bs with bids := ainsert bs.bids p n } : BiddingState).is_complete
         then .ok { bs with bids := ainsert bs.bids p n }
         else .ok ({ bs with bids := ainsert bs.bids p n } : BiddingState).advance_bidder) := by
    unfold BiddingState.place_bid
    rw [if_neg (fun hne => hne h1), if_neg h2, hscrut]
  by_cases hcomp : ({ bs with bids := ainsert bs.bids p n } : BiddingState).is_complete
  · exact ⟨_, by rw [hrec, if_pos hcomp]⟩
  · exact ⟨_, by rw [hrec, if_neg hcomp]⟩

/-- A validated action never errors when applied to a well-synced state:
the only checks `apply_action` repeats after `validate_action` are the
ledger's, which agree with the game-level ones exactly when the state is in
sync. -/
theorem apply_action_validated_no_error (s : GameState) (p : PlayerId)
    (a : PlayerAction) (d : List Card) (tr : Suit)
    (hs : s.well_synced) (hv : s.validate_action p a = none) :
    (s.apply_action p a d tr).2 = none := by
  unfold GameState.apply_action
  rw [hv]
  cases a with
  | bid b =>
      obtain ⟨hp, hph, hvb⟩ := validate_action_bid_inv s p b hv
      obtain ⟨hgt, hlast⟩ := validate_bid_none_inv s p b.tricks hvb
      dsimp only
      cases hbs : s.bidding_state with
      | none => rfl
      | some bs =>
          obtain ⟨hcur, hcards⟩ := hs.1 bs hbs
          obtain ⟨bs1, hok⟩ := place_bid_ok_of bs p b.tricks (hp.trans hcur)
            (by rw [← hcards]; exact hgt) (hlast bs hbs)
          dsimp only
          rw [hok]
          dsimp only
          split
          · rfl
          · rfl
  | playCard c =>
      obtain ⟨hp, hph, hand, hhand, hhas, hvp⟩ := validate_action_play_inv s p c hv
      dsimp only
      rw [hhand]
      have hplay : Hand.play_card hand c = .ok (Hand.eraseFirst hand c) := by
        unfold Hand.play_card
        rw [if_pos (show hand.contains c = true from hhas)]
      dsimp only
      rw [hplay]
      dsimp only
      exact play_card_rest_snd_none _ p c d tr hs.2

/-- C8 (amended): for every well-synced game state — in particular every
state reachable through the public API, where `current_player` agrees with
the bidding ledger's `current_bidder`, `cards_per_player` with its
`cards_this_round`, and a non-empty trick has a lead suit — a failing
`apply_action` leaves the state unchanged.  (Without the sync hypothesis
this is false: see the out-of-sync counterexample, where the failing call
leaves the inserted bid behind.) -/
theorem apply_action_error_leaves_state (s : GameState) (p : PlayerId)
    (a : PlayerAction) (d : List Card) (tr : Suit) (s' : GameState) (e : GameError)
    (hs : s.well_synced) (h : s.apply_action p a d tr = (s', some e)) :
    s' = s := by
  cases hv : s.validate_action p a with
  | none =>
      have hnone := apply_action_validated_no_error s p a d tr hs hv
      rw [h] at hnone
      exact absurd hnone (by simp)
  | some e0 =>
      have happ : s.apply_action p a d tr = (s, some e0) := by
        unfold GameState.apply_action
        rw [hv]
      rw [happ] at h
      exact (congrArg Prod.fst h).symm

/-- Witness for C8: in `autoBugState` a bid by `"p0"` (not the current
player) fails validation, and the state returned alongside the error is
unchanged. -/
theorem apply_action_error_leaves_state_witness :
    (autoBugState.apply_action "p0" (PlayerAction.bid { tricks := 0 }) []
      Suit.clubs).1 = autoBugState :=
  apply_action_error_leaves_state autoBugState "p0"
    (PlayerAction.bid { tricks := 0 }) [] Suit.clubs _ GameError.notPlayerTurn
    ⟨fun bs hbs => by cases hbs; exact ⟨rfl, rfl⟩, fun hne => absurd rfl hne⟩
    rfl

end GBridge
